import Mathlib

/-!
Verification of the schema-to-runtime-guard compiler (the `go` function and its
supporting combinators) found in the repository's guard module.

The embedding models JavaScript runtime values as a `Value` inductive, the
"Meta" type-description tree as a `Meta` inductive, and compiled guards as
total boolean predicates `Guard = Value → Bool`.  The compiler `go` returns
`Except String Guard`: the `.error` constructor models the single `throw` site
(the missing-`GuardAnnotation` case on `Apply` nodes).  Annotation providers
(the `guardFor` functions carried by guard annotations) are modelled by an
explicit registry `Providers` indexed by an identifier carried in the
annotation, mirroring the provider-registry reading of the extension surface.

JavaScript numbers are modelled as `Int` (the claims only exercise integral
values and inclusive order comparisons).  Strict equality `===` is structural
on primitives; on arrays and objects it is reference identity, which a pure
value model cannot observe, so distinct structured literals compare unequal.

Plain objects inherit from `Object.prototype`: the `in` operator finds the
inherited method names on every plain object, and property reads of those
names on an object without an own such key yield the inherited builtin
function.  Both behaviours are modelled (`objectProtoKeys`, `Value.protoFn`),
because the Struct compilation tests `key in fields` on a plain object
literal and so inherits them.  The `__proto__` accessor, whose inherited read
yields an object rather than a function, is left out of the modelled name
set; no claim reads it, and own `__proto__` keys cannot arise from ordinary
assignment or literals.
-/

namespace JsGuard

/-- Runtime JavaScript values as observed by guards: strings, numbers,
booleans, `null`, `undefined`, arrays, plain objects (own enumerable
string-keyed properties in insertion order), and the builtin functions that
plain objects inherit from `Object.prototype` (`protoFn name` is the shared
function object read under that inherited name). -/
inductive Value where
  | str (s : String)
  | num (n : Int)
  | bool (b : Bool)
  | null
  | undefined
  | arr (elems : List Value)
  | obj (props : List (String × Value))
  | protoFn (name : String)

/-- The function-valued property names every plain object inherits from
`Object.prototype` in the JavaScript runtimes this code targets.  The
`__proto__` accessor (inherited read yields an object, not a function) is
not modelled; no claim reads it. -/
def objectProtoKeys : List String :=
  ["constructor", "hasOwnProperty", "isPrototypeOf", "propertyIsEnumerable",
   "toLocaleString", "toString", "valueOf",
   "__defineGetter__", "__defineSetter__", "__lookupGetter__", "__lookupSetter__"]

/-- Whether a key names an inherited `Object.prototype` property. -/
def isProtoKey (k : String) : Bool :=
  objectProtoKeys.any (fun pk => pk == k)

/-- The JavaScript `typeof` operator on modelled values. -/
def typeOf : Value → String
  | .str _ => "string"
  | .num _ => "number"
  | .bool _ => "boolean"
  | .undefined => "undefined"
  | .null => "object"
  | .arr _ => "object"
  | .obj _ => "object"
  | .protoFn _ => "function"

/-- Property read `a[key]` on a plain object: an own key reads its value; an
absent key reads through the prototype chain, yielding the inherited builtin
for `Object.prototype` names and `undefined` otherwise.  On non-objects the
reads the claims exercise also yield `undefined`. -/
def objGet : Value → String → Value
  | .obj props, k =>
      match props.find? (fun p => p.1 == k) with
      | some p => p.2
      | none => if isProtoKey k then .protoFn k else .undefined
  | _, _ => .undefined

/-- `Object.keys(a)`: own enumerable string keys, in order. -/
def objKeys : Value → List String
  | .obj props => props.map Prod.fst
  | _ => []

/-- The property read `a.length`: string and array lengths are built in,
objects may carry an own `length` property, other values read `undefined`. -/
def jsLength (v : Value) : Value :=
  match v with
  | .str s => .num s.length
  | .arr l => .num l.length
  | .obj _ => objGet v "length"
  | _ => .undefined

/-- Strict equality `===`.  Structural on primitives; arrays and objects
compare by reference identity, which independent structured literals never
share, so they compare unequal in the value model. -/
def jsStrictEq : Value → Value → Bool
  | .str a, .str b => a == b
  | .num a, .num b => a == b
  | .bool a, .bool b => a == b
  | .null, .null => true
  | .undefined, .undefined => true
  | .protoFn a, .protoFn b => a == b
  | _, _ => false

/-- A compiled guard, projected to its `is` predicate (the `meta` component of
the source's `Guard` record plays no role in any claim). -/
def Guard : Type := Value → Bool

/-- The `string` guard: `typeof u === "string"`. -/
def string : Guard := fun u => typeOf u == "string"

/-- The `number` guard: `typeof u === "number"`. -/
def number : Guard := fun u => typeOf u == "number"

/-- The `boolean` guard: `typeof u === "boolean"`. -/
def boolean : Guard := fun u => typeOf u == "boolean"

/-- The comparison `a.length >= n`, false when the read is not a number. -/
def jsLenGE (a : Value) (n : Int) : Bool :=
  match jsLength a with
  | .num m => decide (n ≤ m)
  | _ => false

/-- The comparison `a.length <= n`, false when the read is not a number. -/
def jsLenLE (a : Value) (n : Int) : Bool :=
  match jsLength a with
  | .num m => decide (m ≤ n)
  | _ => false

/-- The comparison `a >= n`, false when `a` is not a number. -/
def jsGE (a : Value) (n : Int) : Bool :=
  match a with
  | .num m => decide (n ≤ m)
  | _ => false

/-- The comparison `a <= n`, false when `a` is not a number. -/
def jsLE (a : Value) (n : Int) : Bool :=
  match a with
  | .num m => decide (m ≤ n)
  | _ => false

/-- The `minLength` refinement combinator: `self.is(a) && a.length >= n`. -/
def minLength (n : Int) (self : Guard) : Guard :=
  fun a => self a && jsLenGE a n

/-- The `maxLength` refinement combinator: `self.is(a) && a.length <= n`. -/
def maxLength (n : Int) (self : Guard) : Guard :=
  fun a => self a && jsLenLE a n

/-- The `minimum` refinement combinator: `self.is(a) && a >= n`. -/
def minimum (n : Int) (self : Guard) : Guard :=
  fun a => self a && jsGE a n

/-- The `maximum` refinement combinator: `self.is(a) && a <= n`. -/
def maximum (n : Int) (self : Guard) : Guard :=
  fun a => self a && jsLE a n

/-- The conditional application `if (meta.minLength !== undefined) out = minLength(...)`. -/
def withMinLength : Option Int → Guard → Guard
  | some n, g => minLength n g
  | none, g => g

/-- The conditional application of `maxLength`. -/
def withMaxLength : Option Int → Guard → Guard
  | some n, g => maxLength n g
  | none, g => g

/-- The conditional application of `minimum`. -/
def withMinimum : Option Int → Guard → Guard
  | some n, g => minimum n g
  | none, g => g

/-- The conditional application of `maximum`. -/
def withMaximum : Option Int → Guard → Guard
  | some n, g => maximum n g
  | none, g => g

/-- `typeof u === "object" && u != null && !Array.isArray(u)`. -/
def isArrayV : Value → Bool
  | .arr _ => true
  | _ => false

/-- Whether the value is `null` (the loose `u != null` test, under the
`typeof u === "object"` gate, only excludes `null` itself). -/
def isNullV : Value → Bool
  | .null => true
  | _ => false

/-- The source's `isUnknownIndexSignature`: a non-null, non-array object. -/
def isUnknownIndexSignature (u : Value) : Bool :=
  typeOf u == "object" && !isNullV u && !isArrayV u

/-- Annotations attached to `Apply` Meta nodes.  A guard annotation (tag
`"GuardAnnotation"` in the source) carries its `guardFor` provider, modelled
as the identifier `pid` into an explicit provider registry; all other
annotations are opaque. -/
inductive Ann where
  | guardAnn (pid : Nat)
  | other (tag : Nat)

/-- The source's `isGuardAnnotation` discriminant test. -/
def isGuardAnn : Ann → Bool
  | .guardAnn _ => true
  | _ => false

/-- The registry of `guardFor` providers: each is invoked with the `Apply`
node's full annotation list and the compiled guards of its child Metas. -/
def Providers : Type := Nat → List Ann → List Guard → Guard

/-- The Meta tree: the tagged, recursive description of a data shape that the
compiler interprets.  `Lazy` nodes are treated separately (see `MetaL`
below) because a pure inductive cannot contain the self-referential closures
they close over. -/
inductive Meta where
  | mString (mn mx : Option Int)
  | mNumber (mn mx : Option Int)
  | mBoolean
  | mOf (value : Value)
  | mTuple (components : List Meta) (restElement : Option Meta)
  | mUnion (members : List Meta)
  | mStruct (fields : List (String × Meta)) (indexSig : Option Meta)
  | mApply (symbolDesc : String) (metas : List Meta) (anns : List Ann)

/-- `components.every((guard, i) => guard.is(a[i]))`: walk the compiled
component guards positionally; an index beyond the array's length reads
`undefined`. -/
def checkComponents : List Guard → List Value → Bool
  | [], _ => true
  | g :: gs, [] => g .undefined && checkComponents gs []
  | g :: gs, x :: xs => g x && checkComponents gs xs

/-- The predicate of a compiled `Tuple` guard: `Array.isArray(a)`, every
positional component accepts `a[i]`, and when a rest guard exists every
element of `a.slice(components.length)` satisfies it. -/
def tuplePred (gcs : List Guard) (gr : Option Guard) : Guard :=
  fun a =>
    match a with
    | .arr l =>
        checkComponents gcs l &&
          (match gr with
           | some g => (l.drop gcs.length).all g
           | none => true)
    | _ => false

/-- The predicate of a compiled `Union` guard: `members.some((g) => g.is(a))`. -/
def unionPred (gs : List Guard) : Guard :=
  fun a => gs.any (fun g => g a)

/-- The JavaScript object assignment `fields[key] = g`: overwriting an
existing key keeps its position, a fresh key is appended. -/
def insertField (fs : List (String × Guard)) (k : String) (g : Guard) :
    List (String × Guard) :=
  if fs.any (fun p => p.1 == k) then
    fs.map (fun p => if p.1 == k then (k, g) else p)
  else fs ++ [(k, g)]

/-- The loop `for (const field of meta.fields) fields[field.key] = go(field.value)`. -/
def buildFields (l : List (String × Guard)) : List (String × Guard) :=
  l.foldl (fun acc p => insertField acc p.1 p.2) []

/-- The membership test `key in fields` on the built fields object: the `in`
operator finds own keys and every property inherited from
`Object.prototype`, since `fields` is a plain object literal. -/
def keyIn (fs : List (String × Guard)) (k : String) : Bool :=
  fs.any (fun p => p.1 == k) || isProtoKey k

/-- The predicate of a compiled `Struct` guard: a non-null non-array object,
every built field's guard accepts `a[key]`, and when an index signature is
declared every own key of `a` is either a declared field key or has a value
accepted by the index-signature guard. -/
def structPred (fields : List (String × Guard)) (oIndexSig : Option Guard) :
    Guard :=
  fun a =>
    if isUnknownIndexSignature a then
      fields.all (fun p => p.2 (objGet a p.1)) &&
        (match oIndexSig with
         | some gi => (objKeys a).all (fun k => keyIn fields k || gi (objGet a k))
         | none => true)
    else false

mutual

/-- The compiler `go`: dispatch on the Meta tag, recurse into substructure,
and produce the guard predicate; the only `throw` is the missing
guard-annotation case on `Apply` nodes. -/
def go (P : Providers) : Meta → Except String Guard
  | .mApply sym metas anns =>
      match anns.filter isGuardAnn with
      | .guardAnn pid :: _ =>
          match goList P metas with
          | .ok gs => .ok (P pid anns gs)
          | .error e => .error e
      | _ => .error ("Missing \"GuardAnnotation\" for " ++ sym)
  | .mString mn mx => .ok (withMaxLength mx (withMinLength mn string))
  | .mNumber mn mx => .ok (withMaximum mx (withMinimum mn number))
  | .mBoolean => .ok boolean
  | .mOf value => .ok (fun u => jsStrictEq u value)
  | .mTuple cs r =>
      match goList P cs, goOpt P r with
      | .ok gcs, .ok gr => .ok (tuplePred gcs gr)
      | .error e, _ => .error e
      | _, .error e => .error e
  | .mUnion ms =>
      match goList P ms with
      | .ok gs => .ok (unionPred gs)
      | .error e => .error e
  | .mStruct fs oidx =>
      match goFields P fs, goOpt P oidx with
      | .ok gfs, .ok gidx => .ok (structPred (buildFields gfs) gidx)
      | .error e, _ => .error e
      | _, .error e => .error e

/-- `metas.map(go)`, with the first compilation error propagated. -/
def goList (P : Providers) : List Meta → Except String (List Guard)
  | [] => .ok []
  | m :: t =>
      match go P m, goList P t with
      | .ok g, .ok gs => .ok (g :: gs)
      | .error e, _ => .error e
      | _, .error e => .error e

/-- Compilation of an optional Meta (`O.map(go)`). -/
def goOpt (P : Providers) : Option Meta → Except String (Option Guard)
  | none => .ok none
  | some m =>
      match go P m with
      | .ok g => .ok (some g)
      | .error e => .error e

/-- Compilation of the declared fields of a `Struct`, in order. -/
def goFields (P : Providers) : List (String × Meta) →
    Except String (List (String × Guard))
  | [] => .ok []
  | (k, m) :: t =>
      match go P m, goFields P t with
      | .ok g, .ok gs => .ok ((k, g) :: gs)
      | .error e, _ => .error e
      | _, .error e => .error e

end

/-- Running a compilation result on a value: the compiled guard's verdict, or
`false` when compilation failed (no guard exists in that case). -/
def accepts (P : Providers) (m : Meta) (v : Value) : Bool :=
  match go P m with
  | .ok g => g v
  | .error _ => false

/-- A concrete provider registry whose guards reject everything; used to
instantiate provider-generic statements at concrete inputs. -/
def trivialProviders : Providers := fun _ _ _ _ => false

mutual

/-- Every `Apply` node in the tree carries at least one recognized guard
annotation (the well-formedness condition whose violation is the compiler's
only `throw`). -/
def allApplyAnnotated : Meta → Bool
  | .mApply _ metas anns => !(anns.filter isGuardAnn).isEmpty && allAnnList metas
  | .mString _ _ => true
  | .mNumber _ _ => true
  | .mBoolean => true
  | .mOf _ => true
  | .mTuple cs r => allAnnList cs && allAnnOpt r
  | .mUnion ms => allAnnList ms
  | .mStruct fs oidx => allAnnFields fs && allAnnOpt oidx

/-- `allApplyAnnotated` over a list of Metas. -/
def allAnnList : List Meta → Bool
  | [] => true
  | m :: t => allApplyAnnotated m && allAnnList t

/-- `allApplyAnnotated` over an optional Meta. -/
def allAnnOpt : Option Meta → Bool
  | none => true
  | some m => allApplyAnnotated m

/-- `allApplyAnnotated` over declared struct fields. -/
def allAnnFields : List (String × Meta) → Bool
  | [] => true
  | (_, m) :: t => allApplyAnnotated m && allAnnFields t

end

/-!
Lazy nodes.  A `Lazy` Meta carries a closure `f : () => Meta` whose result may
reference the `Lazy` node itself, so cyclic Meta values exist at runtime; a
Lean inductive cannot contain such cycles.  `MetaL` therefore names the
referenced Meta through an environment `env : Nat → MetaL` (the stable `symbol`
identity of each Lazy node), and the guard semantics `isL` unfolds that
reference on demand, exactly as the compiled guard `(a) => get().is(a)` forces
the memoized deferred compilation at its first use.  The unfolding is
fuel-indexed so the interpreter is total; on any productive schema the verdict
is independent of the fuel once it exceeds the nesting depth of the input
value, which the Lazy theorems exhibit by quantifying over all sufficiently
large fuels. -/

/-- Meta trees in which recursive references appear as named `Lazy` nodes
resolved through an environment (no `Apply` nodes: the claims about Lazy
schemas do not involve the annotation extension point). -/
inductive MetaL where
  | lString (mn mx : Option Int)
  | lNumber (mn mx : Option Int)
  | lBoolean
  | lOf (value : Value)
  | lTuple (components : List MetaL) (restElement : Option MetaL)
  | lUnion (members : List MetaL)
  | lStruct (fields : List (String × MetaL)) (indexSig : Option MetaL)
  | lLazy (name : Nat)

/-- The guard semantics of a `MetaL` tree: each case applies the same
predicate the compiler builds for that tag, and `lLazy` defers to the
environment, consuming one unit of fuel per unfolding step. -/
def isL (env : Nat → MetaL) : Nat → MetaL → Value → Bool
  | 0, _, _ => false
  | fuel + 1, m, v =>
      match m with
      | .lString mn mx => withMaxLength mx (withMinLength mn string) v
      | .lNumber mn mx => withMaximum mx (withMinimum mn number) v
      | .lBoolean => boolean v
      | .lOf w => jsStrictEq v w
      | .lTuple cs r =>
          tuplePred (cs.map (fun c u => isL env fuel c u))
            (r.map (fun rm u => isL env fuel rm u)) v
      | .lUnion ms => unionPred (ms.map (fun mm u => isL env fuel mm u)) v
      | .lStruct fs oidx =>
          structPred
            (buildFields (fs.map (fun p => (p.1, fun u => isL env fuel p.2 u))))
            (oidx.map (fun im u => isL env fuel im u)) v
      | .lLazy n => isL env fuel (env n) v

/-- A self-referential schema through one indirection: the Lazy node with
identity `0` resolves to a Tuple whose rest element is that same Lazy node —
arbitrarily nested arrays. -/
def selfRefEnv : Nat → MetaL := fun _ => .lTuple [] (some (.lLazy 0))

/-- The set of values a guard accepts. -/
def acceptedSet (g : Guard) : Set Value := {v | g v = true}

/-! Shared lemmas about the compiler. -/

theorem any_map_comp {α β : Type} (l : List α) (f : α → β) (p : β → Bool) :
    (l.map f).any p = l.any (fun a => p (f a)) := by
  induction l with
  | nil => rfl
  | cons m t ih => simp [List.any_cons, ih]

theorem all_map_comp {α β : Type} (l : List α) (f : α → β) (p : β → Bool) :
    (l.map f).all p = l.all (fun a => p (f a)) := by
  induction l with
  | nil => rfl
  | cons m t ih => simp [List.all_cons, ih]

theorem accepts_ok {P : Providers} {m : Meta} {g : Guard}
    (h : go P m = .ok g) (v : Value) : accepts P m v = g v := by
  simp [accepts, h]

theorem accepts_fun_eq {P : Providers} {m : Meta} {g : Guard}
    (h : go P m = .ok g) : (fun v => accepts P m v) = g := by
  funext v
  simp [accepts, h]

theorem goList_ok_map {P : Providers} :
    ∀ {ms : List Meta} {gs : List Guard}, goList P ms = .ok gs →
      gs = ms.map (fun m v => accepts P m v) := by
  intro ms
  induction ms with
  | nil =>
      intro gs h
      simp only [goList, Except.ok.injEq] at h
      simp [← h]
  | cons m t ih =>
      intro gs h
      simp only [goList] at h
      cases hg : go P m with
      | error e => rw [hg] at h; exact absurd h (by simp)
      | ok g =>
          rw [hg] at h
          cases hl : goList P t with
          | error e => rw [hl] at h; exact absurd h (by simp)
          | ok gs' =>
              rw [hl] at h
              simp only [Except.ok.injEq] at h
              subst h
              simp [List.map, accepts_fun_eq hg, ih hl]

theorem goOpt_ok_map {P : Providers} :
    ∀ {o : Option Meta} {og : Option Guard}, goOpt P o = .ok og →
      og = o.map (fun m v => accepts P m v) := by
  intro o og h
  cases o with
  | none =>
      simp only [goOpt, Except.ok.injEq] at h
      simp [← h]
  | some m =>
      simp only [goOpt] at h
      cases hg : go P m with
      | error e => rw [hg] at h; exact absurd h (by simp)
      | ok g =>
          rw [hg] at h
          simp only [Except.ok.injEq] at h
          simp [← h, accepts_fun_eq hg]

theorem goFields_ok_map {P : Providers} :
    ∀ {fs : List (String × Meta)} {gfs : List (String × Guard)},
      goFields P fs = .ok gfs →
      gfs = fs.map (fun p => (p.1, fun v => accepts P p.2 v)) := by
  intro fs
  induction fs with
  | nil =>
      intro gfs h
      simp only [goFields, Except.ok.injEq] at h
      simp [← h]
  | cons p t ih =>
      intro gfs h
      obtain ⟨k, m⟩ := p
      simp only [goFields] at h
      cases hg : go P m with
      | error e => rw [hg] at h; exact absurd h (by simp)
      | ok g =>
          rw [hg] at h
          cases hl : goFields P t with
          | error e => rw [hl] at h; exact absurd h (by simp)
          | ok gs' =>
              rw [hl] at h
              simp only [Except.ok.injEq] at h
              subst h
              simp [List.map, accepts_fun_eq hg, ih hl]

theorem go_tuple_ok {P : Providers} {cs : List Meta} {r : Option Meta} {g : Guard}
    (h : go P (.mTuple cs r) = .ok g) :
    ∃ gcs gr, goList P cs = .ok gcs ∧ goOpt P r = .ok gr ∧ g = tuplePred gcs gr := by
  simp only [go] at h
  cases h1 : goList P cs with
  | error e => rw [h1] at h; exact absurd h (by simp)
  | ok gcs =>
      rw [h1] at h
      cases h2 : goOpt P r with
      | error e => rw [h2] at h; exact absurd h (by simp)
      | ok gr =>
          rw [h2] at h
          simp only [Except.ok.injEq] at h
          exact ⟨gcs, gr, rfl, rfl, h.symm⟩

theorem go_union_ok {P : Providers} {ms : List Meta} {g : Guard}
    (h : go P (.mUnion ms) = .ok g) :
    ∃ gs, goList P ms = .ok gs ∧ g = unionPred gs := by
  simp only [go] at h
  cases h1 : goList P ms with
  | error e => rw [h1] at h; exact absurd h (by simp)
  | ok gs =>
      rw [h1] at h
      simp only [Except.ok.injEq] at h
      exact ⟨gs, rfl, h.symm⟩

theorem go_struct_ok {P : Providers} {fs : List (String × Meta)} {oidx : Option Meta}
    {g : Guard} (h : go P (.mStruct fs oidx) = .ok g) :
    ∃ gfs gidx, goFields P fs = .ok gfs ∧ goOpt P oidx = .ok gidx ∧
      g = structPred (buildFields gfs) gidx := by
  simp only [go] at h
  cases h1 : goFields P fs with
  | error e => rw [h1] at h; exact absurd h (by simp)
  | ok gfs =>
      rw [h1] at h
      cases h2 : goOpt P oidx with
      | error e => rw [h2] at h; exact absurd h (by simp)
      | ok gidx =>
          rw [h2] at h
          simp only [Except.ok.injEq] at h
          exact ⟨gfs, gidx, rfl, rfl, h.symm⟩

theorem goList_cons_isOk (P : Providers) (m : Meta) (t : List Meta) :
    (goList P (m :: t)).isOk = ((go P m).isOk && (goList P t).isOk) := by
  simp only [goList]
  cases go P m <;> cases goList P t <;> rfl

theorem goOpt_some_isOk (P : Providers) (m : Meta) :
    (goOpt P (some m)).isOk = (go P m).isOk := by
  simp only [goOpt]
  cases go P m <;> rfl

theorem goFields_cons_isOk (P : Providers) (k : String) (m : Meta)
    (t : List (String × Meta)) :
    (goFields P ((k, m) :: t)).isOk = ((go P m).isOk && (goFields P t).isOk) := by
  simp only [goFields]
  cases go P m <;> cases goFields P t <;> rfl

theorem go_tuple_isOk (P : Providers) (cs : List Meta) (r : Option Meta) :
    (go P (.mTuple cs r)).isOk = ((goList P cs).isOk && (goOpt P r).isOk) := by
  simp only [go]
  cases goList P cs <;> cases goOpt P r <;> rfl

theorem go_union_isOk (P : Providers) (ms : List Meta) :
    (go P (.mUnion ms)).isOk = (goList P ms).isOk := by
  simp only [go]
  cases goList P ms <;> rfl

theorem go_struct_isOk (P : Providers) (fs : List (String × Meta)) (oidx : Option Meta) :
    (go P (.mStruct fs oidx)).isOk = ((goFields P fs).isOk && (goOpt P oidx).isOk) := by
  simp only [go]
  cases goFields P fs <;> cases goOpt P oidx <;> rfl

theorem go_apply_isOk (P : Providers) (sym : String) (metas : List Meta)
    (anns : List Ann) :
    (go P (.mApply sym metas anns)).isOk =
      (!(anns.filter isGuardAnn).isEmpty && (goList P metas).isOk) := by
  simp only [go]
  cases hf : anns.filter isGuardAnn with
  | nil => rfl
  | cons a rest =>
      have ha : isGuardAnn a = true :=
        (List.mem_filter.mp (hf ▸ List.mem_cons_self a rest)).2
      cases a with
      | other tag => simp [isGuardAnn] at ha
      | guardAnn pid => cases goList P metas <;> rfl

mutual

theorem go_isOk_eq (P : Providers) : (m : Meta) → (go P m).isOk = allApplyAnnotated m
  | .mString mn mx => by simp [go, allApplyAnnotated, Except.isOk, Except.toBool]
  | .mNumber mn mx => by simp [go, allApplyAnnotated, Except.isOk, Except.toBool]
  | .mBoolean => by simp [go, allApplyAnnotated, Except.isOk, Except.toBool]
  | .mOf w => by simp [go, allApplyAnnotated, Except.isOk, Except.toBool]
  | .mTuple cs r => by
      rw [go_tuple_isOk, goList_isOk_eq P cs, goOpt_isOk_eq P r]
      simp [allApplyAnnotated]
  | .mUnion ms => by
      rw [go_union_isOk, goList_isOk_eq P ms]
      simp [allApplyAnnotated]
  | .mStruct fs oidx => by
      rw [go_struct_isOk, goFields_isOk_eq P fs, goOpt_isOk_eq P oidx]
      simp [allApplyAnnotated]
  | .mApply sym metas anns => by
      rw [go_apply_isOk, goList_isOk_eq P metas]
      simp [allApplyAnnotated]

theorem goList_isOk_eq (P : Providers) : (l : List Meta) → (goList P l).isOk = allAnnList l
  | [] => by simp [goList, allAnnList, Except.isOk, Except.toBool]
  | m :: t => by
      rw [goList_cons_isOk, go_isOk_eq P m, goList_isOk_eq P t]
      simp [allAnnList]

theorem goOpt_isOk_eq (P : Providers) : (o : Option Meta) → (goOpt P o).isOk = allAnnOpt o
  | none => by simp [goOpt, allAnnOpt, Except.isOk, Except.toBool]
  | some m => by
      rw [goOpt_some_isOk, go_isOk_eq P m]
      simp [allAnnOpt]

theorem goFields_isOk_eq (P : Providers) :
    (fs : List (String × Meta)) → (goFields P fs).isOk = allAnnFields fs
  | [] => by simp [goFields, allAnnFields, Except.isOk, Except.toBool]
  | (k, m) :: t => by
      rw [goFields_cons_isOk, go_isOk_eq P m, goFields_isOk_eq P t]
      simp [allAnnFields]

end

theorem foldl_insertField_of_nodup :
    ∀ (l acc : List (String × Guard)),
      (acc.map Prod.fst ++ l.map Prod.fst).Nodup →
      l.foldl (fun acc p => insertField acc p.1 p.2) acc = acc ++ l
  | [], acc, _ => by simp
  | (k, g) :: t, acc, h => by
      have hparts := List.nodup_append.mp (by simpa using h)
      have hk : k ∉ acc.map Prod.fst := by
        intro hmem
        exact hparts.2.2 hmem (List.mem_cons_self k _)
      have hany : acc.any (fun p => p.1 == k) = false := by
        rw [List.any_eq_false]
        intro p hp
        simp only [beq_iff_eq]
        intro hpk
        exact hk (hpk ▸ List.mem_map_of_mem Prod.fst hp)
      have hins : insertField acc k g = acc ++ [(k, g)] := by
        simp [insertField, hany]
      have hrec :
          ((acc ++ [(k, g)]).map Prod.fst ++ t.map Prod.fst).Nodup := by
        simpa [List.append_assoc] using h
      calc ((k, g) :: t).foldl (fun acc p => insertField acc p.1 p.2) acc
          = t.foldl (fun acc p => insertField acc p.1 p.2) (acc ++ [(k, g)]) := by
            rw [List.foldl_cons, hins]
        _ = (acc ++ [(k, g)]) ++ t := foldl_insertField_of_nodup t (acc ++ [(k, g)]) hrec
        _ = acc ++ (k, g) :: t := by simp

theorem buildFields_of_nodup {l : List (String × Guard)}
    (h : (l.map Prod.fst).Nodup) : buildFields l = l := by
  simpa [buildFields] using foldl_insertField_of_nodup l [] (by simpa using h)

theorem checkComponents_nil_right :
    ∀ gs : List Guard, checkComponents gs [] = gs.all (fun g => g .undefined)
  | [] => rfl
  | g :: gs => by
      rw [checkComponents, checkComponents_nil_right gs, List.all_cons]

/-!  Claim theorems. -/

/-- Claim C3: for every Union Meta node and every input, the compiled union
guard equals the boolean "some member's compiled guard accepts the input",
members taken in declaration order; a union with zero members accepts
nothing. -/
theorem union_guard_is_any_member (P : Providers) (ms : List Meta) (v : Value) :
    ((go P (.mUnion ms)).isOk = true →
      accepts P (.mUnion ms) v = ms.any (fun m => accepts P m v)) ∧
    accepts P (.mUnion []) v = false := by
  constructor
  · intro h
    cases hg : go P (.mUnion ms) with
    | error e => rw [hg] at h; exact absurd h (by simp [Except.isOk, Except.toBool])
    | ok g =>
        obtain ⟨gs, hl, hgp⟩ := go_union_ok hg
        subst hgp
        have hgs := goList_ok_map hl
        subst hgs
        rw [accepts_ok hg]
        show ((ms.map (fun m v => accepts P m v)).any fun g => g v) = _
        rw [any_map_comp]
  · simp [accepts, go, goList, unionPred]

/-- Witness for Claim C3 at a concrete one-member union and input. -/
theorem union_guard_is_any_member_witness :
    accepts trivialProviders (.mUnion [.mBoolean]) (.bool true) =
      [Meta.mBoolean].any (fun m => accepts trivialProviders m (.bool true)) :=
  (union_guard_is_any_member trivialProviders [.mBoolean] (.bool true)).1
    (by rw [go_isOk_eq]; simp [allApplyAnnotated, allAnnList])

/-- Claim C4: compiling an Apply node whose annotations contain no recognized
guard annotation throws an error whose message names the node's symbol
description and yields no guard; with at least one guard annotation present,
the first one's provider is invoked with the node's full annotation list and
the compiled guards of each child Meta in order, and its result is returned. -/
theorem apply_annotation_dispatch (P : Providers) (sym : String)
    (metas : List Meta) (anns : List Ann) :
    (anns.filter isGuardAnn = [] →
      go P (.mApply sym metas anns) =
        .error ("Missing \"GuardAnnotation\" for " ++ sym)) ∧
    (∀ pid rest gs, anns.filter isGuardAnn = .guardAnn pid :: rest →
      goList P metas = .ok gs →
      go P (.mApply sym metas anns) = .ok (P pid anns gs)) := by
  constructor
  · intro h
    simp [go, h]
  · intro pid rest gs hf hl
    simp [go, hf, hl]

/-- Witness for Claim C4: the empty annotation set throws, and a recognized
annotation dispatches to its provider with the full annotation list and the
compiled child guards. -/
theorem apply_annotation_dispatch_witness :
    go trivialProviders (.mApply "mySchema" [] []) =
        .error ("Missing \"GuardAnnotation\" for " ++ "mySchema") ∧
    go trivialProviders (.mApply "mySchema" [.mBoolean] [.other 7, .guardAnn 3]) =
      .ok (trivialProviders 3 [.other 7, .guardAnn 3] [boolean]) :=
  ⟨(apply_annotation_dispatch trivialProviders "mySchema" [] []).1 rfl,
   (apply_annotation_dispatch trivialProviders "mySchema" [.mBoolean]
      [.other 7, .guardAnn 3]).2 3 [] [boolean] (by rfl)
      (by simp [goList, go])⟩

/-- Claim C5: the compiled String, Number and Boolean guards accept exactly
values of the corresponding native runtime type, rejecting every other type
including null and undefined, with declared length and magnitude bounds
conjoined as inclusive checks. -/
theorem primitive_guards_exact (P : Providers) (mn mx mni mxi : Option Int)
    (v : Value) :
    (accepts P (.mString mn mx) v = true ↔
      ∃ s, v = .str s ∧ (∀ a ∈ mn, a ≤ (s.length : Int)) ∧
        (∀ b ∈ mx, (s.length : Int) ≤ b)) ∧
    (accepts P (.mNumber mni mxi) v = true ↔
      ∃ i, v = .num i ∧ (∀ a ∈ mni, a ≤ i) ∧ (∀ b ∈ mxi, i ≤ b)) ∧
    (accepts P .mBoolean v = true ↔ ∃ b, v = .bool b) := by
  refine ⟨?_, ?_, ?_⟩
  · cases mn <;> cases mx <;> cases v <;>
      simp [accepts, go, withMinLength, withMaxLength, minLength, maxLength,
        string, typeOf, jsLenGE, jsLenLE, jsLength]
  · cases mni <;> cases mxi <;> cases v <;>
      simp [accepts, go, withMinimum, withMaximum, minimum, maximum, number,
        typeOf, jsGE, jsLE]
  · cases v <;> simp [accepts, go, boolean, typeOf]

/-- Claim C7: every guard the compiler produces is a total boolean predicate
on arbitrary runtime values, and compilation succeeds exactly when every
Apply node carries a recognized guard annotation — the compiler's error is
the subsystem's only throw. -/
theorem guards_total_throw_reserved_to_compiler (P : Providers) (m : Meta) :
    ((go P m).isOk = allApplyAnnotated m) ∧
    (∀ g, go P m = .ok g → ∀ v, g v = true ∨ g v = false) :=
  ⟨go_isOk_eq P m, fun g _ v => by cases g v <;> simp⟩

/-- Witness for Claim C7 at the Boolean Meta and a number input. -/
theorem guards_total_throw_reserved_to_compiler_witness :
    boolean (.num 1) = true ∨ boolean (.num 1) = false :=
  (guards_total_throw_reserved_to_compiler trivialProviders .mBoolean).2
    boolean (by simp [go]) (.num 1)

/-- Claim C10: a compiled Tuple guard returns false on every input that is
not a genuine array — strings, numbers, booleans, null, undefined and plain
objects (array-likes with numeric keys and a length property included) —
regardless of the component and rest-element guards. -/
theorem tuple_rejects_non_arrays (P : Providers) (cs : List Meta) (r : Option Meta) :
    (∀ s, accepts P (.mTuple cs r) (.str s) = false) ∧
    (∀ n, accepts P (.mTuple cs r) (.num n) = false) ∧
    (∀ b, accepts P (.mTuple cs r) (.bool b) = false) ∧
    (accepts P (.mTuple cs r) .null = false) ∧
    (accepts P (.mTuple cs r) .undefined = false) ∧
    (∀ props, accepts P (.mTuple cs r) (.obj props) = false) := by
  have key : ∀ v, isArrayV v = false → accepts P (.mTuple cs r) v = false := by
    intro v hv
    cases hg : go P (.mTuple cs r) with
    | error e => simp [accepts, hg]
    | ok g =>
        obtain ⟨gcs, gr, _, _, hgp⟩ := go_tuple_ok hg
        subst hgp
        cases v with
        | arr l => simp [isArrayV] at hv
        | str s => simp [accepts, hg, tuplePred]
        | num n => simp [accepts, hg, tuplePred]
        | bool b => simp [accepts, hg, tuplePred]
        | null => simp [accepts, hg, tuplePred]
        | undefined => simp [accepts, hg, tuplePred]
        | obj props => simp [accepts, hg, tuplePred]
        | protoFn name => simp [accepts, hg, tuplePred]
  exact ⟨fun s => key _ rfl, fun n => key _ rfl, fun b => key _ rfl,
    key _ rfl, key _ rfl, fun props => key _ rfl⟩

/-- Claim C1: the code contradicts the claim's own-key requirement.  At the
scenario schema Struct(field x : Number, index signature : String), the
compiled guard accepts the object with own keys x = 1 and toString = 2, even
though "toString" is an own key of the input outside the declared fields and
its value 2 fails the String index-signature guard: the source's test
`key in fields` finds `toString` inherited from `Object.prototype` on the
plain fields object and skips the index-signature check for that own key. -/
theorem struct_proto_key_skips_index_guard :
    accepts trivialProviders
        (.mStruct [("x", .mNumber none none)] (some (.mString none none)))
        (.obj [("x", .num 1), ("toString", .num 2)]) = true ∧
    accepts trivialProviders (.mString none none) (.num 2) = false ∧
    "toString" ∈ objKeys (.obj [("x", .num 1), ("toString", .num 2)]) ∧
    "toString" ∉ List.map Prod.fst [("x", Meta.mNumber none none)] := by
  refine ⟨?_, ?_, by simp [objKeys], by simp⟩
  · simp [accepts, go, goFields, goOpt, structPred, buildFields, insertField,
      keyIn, isProtoKey, objectProtoKeys, isUnknownIndexSignature, isNullV,
      isArrayV, objKeys, objGet, number, typeOf, withMinimum, withMaximum]
  · simp [accepts, go, string, typeOf, withMinLength, withMaxLength]

/-- Claim C2: for a Tuple Meta with a rest element, the compiled guard is the
tuple predicate over the compiled component guards and the compiled rest
guard — an array whose positional elements pass their component guards and
whose remaining elements all pass the rest guard — as exercised by the
String/Number components with Boolean rest scenario. -/
theorem tuple_with_rest_characterization (P : Providers) (cs : List Meta) (rm : Meta) :
    ((go P (.mTuple cs (some rm))).isOk = true →
      ∀ v, accepts P (.mTuple cs (some rm)) v =
        tuplePred (cs.map (fun c u => accepts P c u))
          (some (fun u => accepts P rm u)) v) ∧
    (accepts P (.mTuple [.mString none none, .mNumber none none] (some .mBoolean))
        (.arr [.str "a", .num 1, .bool true, .bool false]) = true) ∧
    (accepts P (.mTuple [.mString none none, .mNumber none none] (some .mBoolean))
        (.arr [.str "a", .num 1, .num 2]) = false) ∧
    (accepts P (.mTuple [.mString none none, .mNumber none none] (some .mBoolean))
        (.arr [.str "a"]) = false) := by
  refine ⟨?_, ?_, ?_, ?_⟩
  · intro h v
    cases hg : go P (.mTuple cs (some rm)) with
    | error e => rw [hg] at h; exact absurd h (by simp [Except.isOk, Except.toBool])
    | ok g =>
        obtain ⟨gcs, gr, hl, ho, hgp⟩ := go_tuple_ok hg
        subst hgp
        have h1 := goList_ok_map hl
        have h2 := goOpt_ok_map ho
        subst h1
        subst h2
        rw [accepts_ok hg]
        rfl
  all_goals
    simp [accepts, go, goList, goOpt, tuplePred, checkComponents, string, number,
      boolean, typeOf, withMinLength, withMaxLength, withMinimum, withMaximum]

/-- Witness for Claim C2 at a concrete one-component tuple with rest. -/
theorem tuple_with_rest_characterization_witness :
    accepts trivialProviders (.mTuple [.mBoolean] (some .mBoolean))
        (.arr [.bool true]) =
      tuplePred ([Meta.mBoolean].map (fun c u => accepts trivialProviders c u))
        (some (fun u => accepts trivialProviders .mBoolean u))
        (.arr [.bool true]) :=
  (tuple_with_rest_characterization trivialProviders [.mBoolean] .mBoolean).1
    (by rw [go_isOk_eq]
        simp [allApplyAnnotated, allAnnList, allAnnOpt])
    (.arr [.bool true])

/-- Claim C9 counterexample: with components [Of undefined, Of undefined] —
component guards that accept undefined — and no rest element (the rest check
passes vacuously), the input [1] is an array shorter than the component
list, yet the compiled tuple guard rejects it: the present element fails its
component guard. -/
theorem tuple_short_array_rejected :
    accepts trivialProviders (.mTuple [.mOf .undefined, .mOf .undefined] none)
        (.arr [.num 1]) = false ∧
    accepts trivialProviders (.mOf .undefined) .undefined = true ∧
    List.length [Value.num 1] < List.length [Meta.mOf .undefined, Meta.mOf .undefined] := by
  refine ⟨?_, ?_, by simp⟩
  · simp [accepts, go, goList, goOpt, tuplePred, checkComponents, jsStrictEq]
  · simp [accepts, go, jsStrictEq]

/-- Claim C9 (amended): a missing positional element is checked as the value
undefined: the compiled tuple guard applies each component guard to the
element at its position, reading undefined past the end of the array, and
applies the rest guard to the elements after the components; so an array
shorter than the component list (the empty array included) is accepted
exactly when its present elements pass their component guards and the
remaining component guards accept undefined — in particular the empty array
is accepted whenever every component guard accepts undefined. -/
theorem tuple_missing_as_undefined (P : Providers) (cs : List Meta) (r : Option Meta) :
    ((go P (.mTuple cs r)).isOk = true →
      ∀ l, accepts P (.mTuple cs r) (.arr l) =
        (checkComponents (cs.map (fun c u => accepts P c u)) l &&
          match r with
          | some rm => (l.drop cs.length).all (fun x => accepts P rm x)
          | none => true)) ∧
    ((go P (.mTuple cs r)).isOk = true →
      (∀ c ∈ cs, accepts P c .undefined = true) →
      accepts P (.mTuple cs r) (.arr []) = true) := by
  have main : (go P (.mTuple cs r)).isOk = true →
      ∀ l, accepts P (.mTuple cs r) (.arr l) =
        (checkComponents (cs.map (fun c u => accepts P c u)) l &&
          match r with
          | some rm => (l.drop cs.length).all (fun x => accepts P rm x)
          | none => true) := by
    intro h l
    cases hg : go P (.mTuple cs r) with
    | error e => rw [hg] at h; exact absurd h (by simp [Except.isOk, Except.toBool])
    | ok g =>
        obtain ⟨gcs, gr, hl, ho, hgp⟩ := go_tuple_ok hg
        subst hgp
        have h1 := goList_ok_map hl
        have h2 := goOpt_ok_map ho
        subst h1
        subst h2
        rw [accepts_ok hg]
        cases r with
        | none => rfl
        | some rm => simp [tuplePred, List.length_map]
  refine ⟨main, fun h hund => ?_⟩
  rw [main h []]
  have hcomp : checkComponents (cs.map (fun c u => accepts P c u)) [] = true := by
    rw [checkComponents_nil_right, all_map_comp, List.all_eq_true]
    intro c hc
    exact hund c hc
  rw [hcomp]
  cases r <;> simp

/-- Witness for Claim C9 (amended) at a one-component tuple whose component
guard accepts undefined, applied to the empty array. -/
theorem tuple_missing_as_undefined_witness :
    accepts trivialProviders (.mTuple [.mOf .undefined] none) (.arr []) = true :=
  (tuple_missing_as_undefined trivialProviders [.mOf .undefined] none).2
    (by rw [go_isOk_eq]
        simp [allApplyAnnotated, allAnnList, allAnnOpt])
    (by intro c hc
        simp only [List.mem_singleton] at hc
        subst hc
        simp [accepts, go, jsStrictEq])

/-- Claim C8 counterexample: at n = 0 applied to the string guard, the
refined guard accepts every value the unrefined guard accepts (every string
has length at least 0), so the accepted set is not a strict subset. -/
theorem minLength_zero_not_strict :
    ¬ (acceptedSet (minLength 0 string) ⊂ acceptedSet string) := by
  rw [Set.ssubset_def]
  rintro ⟨_, hns⟩
  apply hns
  intro v hv
  have hv' : string v = true := hv
  have hmem : minLength 0 string v = true := by
    cases v with
    | str s =>
        simp [minLength, string, typeOf, jsLenGE, jsLength, Int.natCast_nonneg]
    | num n => simp [string, typeOf] at hv'
    | bool b => simp [string, typeOf] at hv'
    | null => simp [string, typeOf] at hv'
    | undefined => simp [string, typeOf] at hv'
    | arr l => simp [string, typeOf] at hv'
    | obj props => simp [string, typeOf] at hv'
    | protoFn name => simp [string, typeOf] at hv'
  exact hmem

/-- Claim C8 (amended): for every guard g and bound n, minLength(n)(g)
accepts a subset — not in general a strict subset — of the values g accepts,
and for n ≤ n' the set accepted by minLength(n')(g) is contained in the set
accepted by minLength(n)(g): increasing n never increases the accepted set. -/
theorem minLength_subset_antitone (g : Guard) (n nn : Int) (v : Value) :
    (minLength n g v = true → g v = true) ∧
    (n ≤ nn → minLength nn g v = true → minLength n g v = true) := by
  constructor
  · intro h
    simp only [minLength, Bool.and_eq_true] at h
    exact h.1
  · intro hle h
    simp only [minLength, Bool.and_eq_true] at h ⊢
    refine ⟨h.1, ?_⟩
    have hlen := h.2
    unfold jsLenGE at hlen ⊢
    cases hj : jsLength v <;> simp_all
    omega

/-- Witness for Claim C8 (amended) at the string guard, bounds 0 ≤ 1, and a
one-character string. -/
theorem minLength_subset_antitone_witness :
    minLength 0 string (.str "a") = true :=
  (minLength_subset_antitone string 0 1 (.str "a")).2 (by decide) (by decide)

/-- Claim C6: the self-referential schema (a Lazy node referencing itself
through one indirection, here nested arrays) yields a guard that accepts
depth-1 and depth-2 nested values and rejects depth-mismatched ones, for
every sufficiently large unfolding fuel — the on-demand, identity-keyed
unfolding of the Lazy reference never regresses past the input's depth. -/
theorem lazy_selfref_guard_depths (k : Nat) :
    isL selfRefEnv (k + 6) (.lLazy 0) (.arr []) = true ∧
    isL selfRefEnv (k + 6) (.lLazy 0) (.arr [.arr []]) = true ∧
    isL selfRefEnv (k + 6) (.lLazy 0) (.num 1) = false ∧
    isL selfRefEnv (k + 6) (.lLazy 0) (.arr [.num 1]) = false ∧
    isL selfRefEnv (k + 6) (.lLazy 0) (.arr [.arr [.num 1]]) = false :=
  ⟨rfl, rfl, rfl, rfl, rfl⟩

end JsGuard
